import Mathlib

/-! Formal verification of the coverage-planning engine of the wall-finishing
robot repository.  The planning engine is specified in the repository by the
precise pseudocode of the design document (`src/unnamed/part_001`) and of the
README (`src/unnamed/part_003`); the definitions below are direct translations
of those sources, together with the frontend request construction from
`src/frontend/src/App.tsx`.  Helper routines that the sources reference but do
not define (`contains_point`, `intersects_horizontal_segment`, the sampling
segment test) are modelled from the specification and marked as such.
Coordinates are rationals; `while` loops over monotonically advancing rational
counters are embedded as structural recursion over the (exactly computed)
iteration count, with lemmas (`ceilSteps_lt_iff`, `stepCountInc_lt_iff`)
recovering the original loop guards. -/

namespace WFR

/-- A waypoint `(x, y)` in meters. -/
structure Point where
  x : ℚ
  y : ℚ
deriving DecidableEq

/-- An axis-aligned rectangle `(x, y, w, h)`: lower-left corner plus extents,
as used for obstacles and expanded obstacles throughout the sources. -/
structure Rect where
  x : ℚ
  y : ℚ
  w : ℚ
  h : ℚ
deriving DecidableEq

/-- The two planning strategies offered by the engine. -/
inductive Pattern where
  | zigzag
  | spiral
deriving DecidableEq

/-- Planner settings (`PlannerSettings` of the spec / `plannerConfig` of the
frontend): pattern, spacing, speed, clearance, resolution. -/
structure PlannerSettings where
  pattern : Pattern
  spacing : ℚ
  speed : ℚ
  clearance : ℚ
  resolution : ℚ
deriving DecidableEq

/-- The error taxonomy of a planning call (spec section 7). -/
inductive PlanError where
  | configurationError
  | planningError
  | limitExceeded
  | internalInvariantViolation
deriving DecidableEq

/-- Modelled from the spec: `pointInRect` / `obstacle.contains_point` — the
helper is referenced but not defined in the sources; the spec fixes it as the
closed-interval membership test (boundary counts as inside). -/
def containsPoint (r : Rect) (px py : ℚ) : Bool :=
  decide (r.x ≤ px ∧ px ≤ r.x + r.w ∧ r.y ≤ py ∧ py ≤ r.y + r.h)

/-- `expand_obstacle` (design doc part_001 lines 176-183, README part_003
lines 380-390): inflate the obstacle by the clearance on every side.  Note
that the source performs no clamping to the wall. -/
def expandObstacle (o : Rect) (c : ℚ) : Rect :=
  ⟨o.x - c, o.y - c, o.w + 2 * c, o.h + 2 * c⟩

/-- Modelled from the spec: the clamped expansion that the specification
describes (inflate by clearance, then clamp every coordinate and extent to
`[0,W]×[0,H]`).  This definition follows the spec's words and exists only to
be compared with `expandObstacle`, the translation of the source. -/
def clampedExpandObstacle (W H : ℚ) (o : Rect) (c : ℚ) : Rect :=
  ⟨max 0 (o.x - c), max 0 (o.y - c),
    min W (o.x + o.w + c) - max 0 (o.x - c),
    min H (o.y + o.h + c) - max 0 (o.y - c)⟩

/-- `is_valid` / `is_point_valid` (design doc lines 188-199, README lines
394-407): the candidate must lie inside the wall bounds and inside no
expanded obstacle. -/
def isPointValid (expanded : List Rect) (W H px py : ℚ) : Bool :=
  decide (0 ≤ px ∧ px ≤ W ∧ 0 ≤ py ∧ py ≤ H) &&
    expanded.all fun ob => !containsPoint ob px py

/-- One subtraction step of `get_free_segments_in_row` (design doc lines
77-88): remove an expanded obstacle's horizontal extent from one candidate
interval, keeping up to two residual pieces and dropping degenerate ones. -/
def subtractObstacle (e : Rect) (seg : ℚ × ℚ) : List (ℚ × ℚ) :=
  if e.x > seg.2 ∨ e.x + e.w < seg.1 then [seg]
  else
    (if seg.1 < e.x then [(seg.1, e.x)] else []) ++
      (if e.x + e.w < seg.2 then [(e.x + e.w, seg.2)] else [])

/-- `get_free_segments_in_row` (design doc lines 66-90): start from the full
width `[0, W]`, expand each obstacle by the clearance inline, and subtract
those whose vertical extent contains the scan height `y`. -/
def getFreeSegmentsInRow (W y : ℚ) (obstacles : List Rect) (c : ℚ) :
    List (ℚ × ℚ) :=
  obstacles.foldl
    (fun segs ob =>
      let e := expandObstacle ob c
      if e.y ≤ y ∧ y ≤ e.y + e.h then segs.flatMap (subtractObstacle e)
      else segs)
    [(0, W)]

/-- Iteration count of the loop `v := step/2; while v < bound: v += step`,
i.e. the number of naturals `k` with `step/2 + k*step < bound`.  Used for the
zigzag row loop (`while y < wall.height`) and both spiral layer loops;
`ceilSteps_lt_iff` recovers the while-guard. -/
def ceilSteps (bound step : ℚ) : ℕ :=
  if step ≤ 0 then 0 else (⌈(bound - step / 2) / step⌉).toNat

/-- Iteration count of the inclusive scan `x := a; while x ≤ b: x += r`
(zigzag segment scans); `stepCountInc_lt_iff` recovers the while-guard. -/
def stepCountInc (a b r : ℚ) : ℕ :=
  if r ≤ 0 ∨ b < a then 0 else (⌊(b - a) / r⌋ + 1).toNat

/-- Iteration count of the exclusive scan `for v in range(a, a+len, r)`
used by the spiral edge traces (Python range semantics, stop excluded). -/
def stepCountExc (len r : ℚ) : ℕ :=
  if r ≤ 0 then 0 else (⌈len / r⌉).toNat

/-- Left-to-right scan of one free segment `[a, b]` at height `y` (design doc
lines 42-47): candidates `a, a+r, a+2r, …` while `x ≤ b`, appending each
candidate that passes `is_valid`. -/
def scanSegmentLTR (expanded : List Rect) (W H r y a b : ℚ) : List Point :=
  (((List.range (stepCountInc a b r)).map fun i : ℕ => a + (i : ℚ) * r).filter
      fun px => isPointValid expanded W H px y).map fun px => ⟨px, y⟩

/-- Right-to-left scan of one free segment `[a, b]` at height `y` (design doc
lines 50-55): candidates `b, b-r, b-2r, …` while `x ≥ a`. -/
def scanSegmentRTL (expanded : List Rect) (W H r y a b : ℚ) : List Point :=
  (((List.range (stepCountInc a b r)).map fun i : ℕ => b - (i : ℚ) * r).filter
      fun px => isPointValid expanded W H px y).map fun px => ⟨px, y⟩

/-- One zigzag row (design doc lines 40-55): free segments are visited in
forward order scanning left-to-right when `dir = true`, in reverse order
scanning right-to-left otherwise. -/
def zigzagRow (expanded obstacles : List Rect) (W H c r : ℚ) (dir : Bool)
    (y : ℚ) : List Point :=
  let segs := getFreeSegmentsInRow W y obstacles c
  if dir then segs.flatMap fun sg => scanSegmentLTR expanded W H r y sg.1 sg.2
  else segs.reverse.flatMap fun sg => scanSegmentRTL expanded W H r y sg.1 sg.2

/-- The zigzag row loop (design doc lines 36-58): `n` is the remaining number
of iterations of `while y < wall.height`, the carried state is the row height
`y` (incremented by `spacing`) and the direction flag (negated after every
row, whether or not the row contributed points). -/
def zigzagGo (expanded obstacles : List Rect) (W H c r s : ℚ) :
    ℕ → ℚ → Bool → List Point
  | 0, _, _ => []
  | n + 1, y, dir =>
      zigzagRow expanded obstacles W H c r dir y ++
        zigzagGo expanded obstacles W H c r s n (y + s) (!dir)

/-- `plan_zigzag` (design doc lines 31-60): start at `y = spacing/2` with
direction left-to-right. -/
def planZigzagPoints (obstacles : List Rect) (W H s c r : ℚ) : List Point :=
  zigzagGo (obstacles.map fun o => expandObstacle o c) obstacles W H c r s
    (ceilSteps H s) (s / 2) true

/-- One spiral layer at inset `offset` (design doc lines 125-150): trace top
edge left-to-right, right edge bottom-to-top of candidates, bottom edge
right-to-left, left edge reversed, each with Python-range (exclusive stop)
candidates at `resolution` increments, keeping candidates that pass
`is_valid`. -/
def spiralLayerPoints (expanded : List Rect) (W H r o : ℚ) : List Point :=
  let rw := W - 2 * o
  let rh := H - 2 * o
  let xs := (List.range (stepCountExc rw r)).map fun i : ℕ => o + (i : ℚ) * r
  let ys := (List.range (stepCountExc rh r)).map fun i : ℕ => o + (i : ℚ) * r
  ((xs.filter fun px => isPointValid expanded W H px o).map fun px =>
      (⟨px, o⟩ : Point)) ++
    ((ys.filter fun py => isPointValid expanded W H (o + rw) py).map fun py =>
      (⟨o + rw, py⟩ : Point)) ++
    ((xs.reverse.filter fun px => isPointValid expanded W H px (o + rh)).map
      fun px => (⟨px, o + rh⟩ : Point)) ++
    ((ys.reverse.filter fun py => isPointValid expanded W H o py).map fun py =>
      (⟨o, py⟩ : Point))

/-- The spiral layer loop of the design doc (part_001 lines 124-152): guarded
by `offset < min(W,H)/2` (captured by the iteration count), breaking early
only when the layer rectangle has non-positive width or height. -/
def spiralGo (expanded : List Rect) (W H r s : ℚ) : ℕ → ℚ → List Point
  | 0, _ => []
  | n + 1, o =>
      if W - 2 * o ≤ 0 ∨ H - 2 * o ≤ 0 then []
      else
        spiralLayerPoints expanded W H r o ++
          spiralGo expanded W H r s n (o + s)

/-- `plan_spiral` (design doc lines 120-154): offsets start at `spacing/2`. -/
def planSpiralPoints (obstacles : List Rect) (W H s c r : ℚ) : List Point :=
  spiralGo (obstacles.map fun o => expandObstacle o c) W H r s
    (ceilSteps (min W H / 2) s) (s / 2)

/-- Layer-offset skeleton of the design-doc spiral loop (part_001 lines
124-152): the list of offsets whose layer is actually traced — guard
`offset < min(W,H)/2`, break only at non-positive width/height. -/
def spiralOffsetsGoD (W H s : ℚ) : ℕ → ℚ → List ℚ
  | 0, _ => []
  | n + 1, o =>
      if W - 2 * o ≤ 0 ∨ H - 2 * o ≤ 0 then []
      else o :: spiralOffsetsGoD W H s n (o + s)

/-- Layer offsets traced by the design-doc spiral (part_001). -/
def spiralLayerOffsets (W H s : ℚ) : List ℚ :=
  spiralOffsetsGoD W H s (ceilSteps (min W H / 2) s) (s / 2)

/-- Layer-offset skeleton of the README spiral loop (part_003 lines 294-347):
guard `offset < max(wall_width, wall_height)`, break once the layer rectangle
has `width ≤ resolution` or `height ≤ resolution`. -/
def spiralOffsetsGoR (W H s r : ℚ) : ℕ → ℚ → List ℚ
  | 0, _ => []
  | n + 1, o =>
      if W - 2 * o ≤ r ∨ H - 2 * o ≤ r then []
      else o :: spiralOffsetsGoR W H s r n (o + s)

/-- Layer offsets traced by the README spiral (part_003). -/
def spiralLayerOffsetsReadme (W H s r : ℚ) : List ℚ :=
  spiralOffsetsGoR W H s r (ceilSteps (max W H) s) (s / 2)

/-- Modelled from the spec: `intersects_horizontal_segment` — the helper is
referenced but not defined in the sources; the spec fixes it as the exact
closed-interval overlap test for an axis-aligned horizontal segment. -/
def intersectsHorizontalSegment (ob : Rect) (x1 x2 y : ℚ) : Bool :=
  decide (ob.y ≤ y ∧ y ≤ ob.y + ob.h ∧ ob.x ≤ max x1 x2 ∧
    min x1 x2 ≤ ob.x + ob.w)

/-- Modelled from the spec: `intersects_vertical_segment`, analogously. -/
def intersectsVerticalSegment (ob : Rect) (x y1 y2 : ℚ) : Bool :=
  decide (ob.x ≤ x ∧ x ≤ ob.x + ob.w ∧ ob.y ≤ max y1 y2 ∧
    min y1 y2 ≤ ob.y + ob.h)

/-- Modelled from the spec: the sample count `n = max(10, ⌊distance/r⌋)` of
the diagonal segment test; `⌊√d² / r⌋` is computed exactly on rationals as
`Nat.sqrt ⌊d²/r²⌋` (floors commute with the square root). -/
def diagonalSampleCount (p1 p2 : Point) (r : ℚ) : ℕ :=
  max 10
    (Nat.sqrt (Int.toNat ⌊((p2.x - p1.x) ^ 2 + (p2.y - p1.y) ^ 2) / r ^ 2⌋))

/-- Modelled from the spec: `line_segment_intersects_rectangle` — sample `n`
intermediate points along the parametric segment and test each with the
point-in-rectangle primitive (a conservative approximation, per spec
section 4.1). -/
def lineSegmentIntersectsRect (p1 p2 : Point) (r : ℚ) (ob : Rect) : Bool :=
  let n := diagonalSampleCount p1 p2 r
  (List.range n).any fun j : ℕ =>
    let t : ℚ := ((j : ℚ) + 1) / ((n : ℚ) + 1)
    containsPoint ob (p1.x + t * (p2.x - p1.x)) (p1.y + t * (p2.y - p1.y))

/-- The tolerance classifying a segment as horizontal/vertical in
`segment_crosses_obstacle` (README lines 414-421).  Its numeric value is not
fixed anywhere in the sources; modelled from the spec's "small tolerance". -/
def axisTolerance : ℚ := 1 / 1000000

/-- `segment_crosses_obstacle` against a single expanded obstacle (README
part_003 lines 411-429): horizontal and vertical segments get the exact
interval test, others the sampling test. -/
def segmentCrossesRect (r : ℚ) (p1 p2 : Point) (ob : Rect) : Bool :=
  if |p2.y - p1.y| < axisTolerance then
    intersectsHorizontalSegment ob p1.x p2.x p1.y
  else if |p2.x - p1.x| < axisTolerance then
    intersectsVerticalSegment ob p1.x p1.y p2.y
  else lineSegmentIntersectsRect p1 p2 r ob

/-- `segment_crosses_obstacle` (README lines 411-429): loop over all expanded
obstacles. -/
def segmentCrossesObstacles (expanded : List Rect) (r : ℚ) (p1 p2 : Point) :
    Bool :=
  expanded.any (segmentCrossesRect r p1 p2)

/-- The consecutive-pair pass of `validate_path_safety` (README lines
440-446): no segment between consecutive points may cross an expanded
obstacle. -/
def segmentsOk (expanded : List Rect) (r : ℚ) : List Point → Bool
  | p :: q :: rest =>
      !segmentCrossesObstacles expanded r p q &&
        segmentsOk expanded r (q :: rest)
  | _ => true

/-- `validate_path_safety` (README lines 434-446): every point must pass
`is_point_valid` and every consecutive segment must not cross an expanded
obstacle; returns `true` when the whole path passes. -/
def validatePathSafety (expanded : List Rect) (W H r : ℚ)
    (pts : List Point) : Bool :=
  (pts.all fun p => isPointValid expanded W H p.x p.y) &&
    segmentsOk expanded r pts

/-- `MAX_POINTS` of the design doc (part_001 line 324). -/
def MAX_POINTS : ℕ := 10000

/-- `MAX_TRAJECTORY_POINTS` default of the README environment (part_003
line 658). -/
def MAX_TRAJECTORY_POINTS : ℕ := 50000

/-- Raw waypoint generation of one planning call: dispatch on the configured
pattern (spec section 9: closed tagged variant). -/
def rawPlanPoints (obstacles : List Rect) (W H : ℚ)
    (st : PlannerSettings) : List Point :=
  match st.pattern with
  | .zigzag => planZigzagPoints obstacles W H st.spacing st.clearance
      st.resolution
  | .spiral => planSpiralPoints obstacles W H st.spacing st.clearance
      st.resolution

/-- The planning call at waypoint level, atomic as in the sources: generate,
raise on zero points (design doc lines 314-319), raise on excessive point
count (design doc lines 321-329), re-verify with `validate_path_safety`
(README lines 434-446), and only then return the complete point sequence.
Input validation (`ConfigurationError`) happens upstream of this call. -/
def planPoints (obstacles : List Rect) (W H : ℚ) (st : PlannerSettings)
    (maxPoints : ℕ) : Except PlanError (List Point) :=
  let pts := rawPlanPoints obstacles W H st
  if pts.isEmpty then .error .planningError
  else if maxPoints < pts.length then .error .limitExceeded
  else if validatePathSafety (obstacles.map fun o => expandObstacle o st.clearance)
      W H st.resolution pts then .ok pts
  else .error .internalInvariantViolation

/-- `euclidean_distance` (design doc lines 212-213). -/
noncomputable def euclideanDistance (p1 p2 : Point) : ℝ :=
  Real.sqrt (((p2.x : ℝ) - (p1.x : ℝ)) ^ 2 + ((p2.y : ℝ) - (p1.y : ℝ)) ^ 2)

/-- `calculate_path_length` (design doc lines 204-210): accumulate the
Euclidean distance of every consecutive pair. -/
noncomputable def calculatePathLength : List Point → ℝ
  | p :: q :: rest => euclideanDistance p q + calculatePathLength (q :: rest)
  | _ => 0

/-- `estimate_duration` (design doc lines 219-221). -/
noncomputable def estimateDuration (pathLength : ℝ) (speed : ℚ) : ℝ :=
  pathLength / (speed : ℝ)

/-- The immutable trajectory result of a planning call. -/
structure Trajectory where
  points : List Point
  length_m : ℝ
  duration_s : ℝ
  point_count : ℕ

/-- Assembly of the trajectory result from the accepted point sequence:
metrics as computed by the sources. -/
noncomputable def mkTrajectory (pts : List Point) (speed : ℚ) : Trajectory :=
  ⟨pts, calculatePathLength pts,
    estimateDuration (calculatePathLength pts) speed, pts.length⟩

/-- Modelled from the spec: the overlap test used by `find_overlapping`
(referenced but not defined in part_001) — two axis-aligned bounding boxes
intersect (touching counts, per spec scenario E). -/
def rectsOverlap (a b : Rect) : Bool :=
  decide (a.x ≤ b.x + b.w ∧ b.x ≤ a.x + a.w ∧ a.y ≤ b.y + b.h ∧
    b.y ≤ a.y + a.h)

/-- Modelled from the spec: `union` of two rectangles as their bounding box
(spec section 4.2, bounding-box union). -/
def rectUnion (a b : Rect) : Rect :=
  ⟨min a.x b.x, min a.y b.y,
    max (a.x + a.w) (b.x + b.w) - min a.x b.x,
    max (a.y + a.h) (b.y + b.h) - min a.y b.y⟩

/-- One iteration of `merge_obstacles` (design doc lines 302-312): find the
first already-merged rectangle overlapping the incoming obstacle; if one
exists remove it and append the union, otherwise append the obstacle. -/
def mergeStep (merged : List Rect) (obs : Rect) : List Rect :=
  match merged.find? fun m => rectsOverlap obs m with
  | some m => merged.erase m ++ [rectUnion obs m]
  | none => merged ++ [obs]

/-- `merge_obstacles` (design doc lines 302-312): a single left-to-right pass
over the obstacle list. -/
def mergeObstacles (l : List Rect) : List Rect :=
  l.foldl mergeStep []

/-- Containment of one rectangle in another (for stating what `merge_obstacles`
does guarantee). -/
def rectContainsB (outer inner : Rect) : Bool :=
  decide (outer.x ≤ inner.x ∧ inner.x + inner.w ≤ outer.x + outer.w ∧
    outer.y ≤ inner.y ∧ inner.y + inner.h ≤ outer.y + outer.h)

/-- The planner settings the frontend builds in `createWallAndPath`
(`src/frontend/src/App.tsx` lines 26-36): fixed speed, clearance and
resolution; spacing 0.05 for spiral and 0.2 otherwise. -/
def createWallAndPathSettings (selectedPattern : Pattern) : PlannerSettings :=
  ⟨selectedPattern, if selectedPattern = .spiral then 1 / 20 else 1 / 5,
    1 / 10, 1 / 50, 1 / 100⟩

/-- The planner settings the frontend builds in the Regenerate click handler
(`src/frontend/src/App.tsx` lines 157-165). -/
def regenerateSettings (selectedPattern : Pattern) : PlannerSettings :=
  ⟨selectedPattern, if selectedPattern = .spiral then 1 / 20 else 1 / 5,
    1 / 10, 1 / 50, 1 / 100⟩

/-- The settings of spec scenario A (5×5 wall, zigzag, spacing 0.2,
resolution 0.01, with the frontend's default speed and clearance). -/
def scenarioASettings : PlannerSettings :=
  ⟨.zigzag, 1 / 5, 1 / 10, 1 / 50, 1 / 100⟩

/-- The point sequence scenario A generates: 25 rows (row `k` at height
`0.1 + 0.2·k`), each of 501 points spanning `[0, 5]` at `0.01` increments,
left-to-right on even rows and right-to-left on odd rows. -/
def scenarioAList : List Point :=
  (List.range 25).flatMap fun k : ℕ =>
    (List.range 501).map fun i : ℕ =>
      if k % 2 = 0 then (⟨(i : ℚ) * (1 / 100), 1 / 5 / 2 + (k : ℚ) * (1 / 5)⟩ : Point)
      else (⟨5 - (i : ℚ) * (1 / 100), 1 / 5 / 2 + (k : ℚ) * (1 / 5)⟩ : Point)

/-- The iteration count `ceilSteps` captures the loop guard exactly: the
`k`-th iteration runs iff its counter value `step/2 + k·step` is below the
bound. -/
theorem ceilSteps_lt_iff (bound step : ℚ) (hs : 0 < step) (k : ℕ) :
    k < ceilSteps bound step ↔ step / 2 + (k : ℚ) * step < bound := by
  unfold ceilSteps
  rw [if_neg (not_le.mpr hs), Int.lt_toNat, Int.lt_ceil, lt_div_iff₀ hs]
  push_cast
  constructor <;> intro h <;> linarith

/-- The iteration count `stepCountInc` captures the inclusive scan guard
exactly. -/
theorem stepCountInc_lt_iff (a b r : ℚ) (hr : 0 < r) (i : ℕ) :
    i < stepCountInc a b r ↔ a + (i : ℚ) * r ≤ b := by
  unfold stepCountInc
  by_cases hba : b < a
  · rw [if_pos (Or.inr hba)]
    simp only [Nat.not_lt_zero, false_iff, not_le]
    nlinarith [mul_nonneg (Nat.cast_nonneg (α := ℚ) i) hr.le]
  · rw [if_neg (by push_neg; exact ⟨not_le.mp fun hle => absurd hle (not_le.mpr hr), le_of_not_lt hba⟩)]
    rw [Int.lt_toNat, Int.lt_add_one_iff, Int.le_floor, le_div_iff₀ hr]
    push_cast
    constructor <;> intro h <;> linarith

/-- Unrolling of the zigzag row loop: row `k` is scanned at height
`y₀ + k·spacing` with the direction obtained from the initial one by flipping
once per preceding row, i.e. by the parity of `k`. -/
theorem zigzagGo_eq_flatMap (expanded obstacles : List Rect) (W H c r s : ℚ) :
    ∀ (n : ℕ) (y : ℚ) (d : Bool),
      zigzagGo expanded obstacles W H c r s n y d =
        (List.range n).flatMap fun k : ℕ =>
          zigzagRow expanded obstacles W H c r (if k % 2 = 0 then d else !d)
            (y + (k : ℚ) * s) := by
  intro n
  induction n with
  | zero => intro y d; simp [zigzagGo]
  | succ n ih =>
      intro y d
      rw [zigzagGo, List.range_succ_eq_map, ih]
      simp only [List.flatMap_cons, List.flatMap_map]
      congr 1
      · simp
      · congr 1
        funext k
        rcases Nat.mod_two_eq_zero_or_one k with hk | hk
        · have hk1 : (k + 1) % 2 = 1 := by omega
          simp only [Function.comp, Nat.succ_eq_add_one, hk, hk1]
          norm_num
          congr 1
          ring
        · have hk1 : (k + 1) % 2 = 0 := by omega
          simp only [Function.comp, Nat.succ_eq_add_one, hk, hk1, Bool.not_not]
          norm_num
          congr 1
          ring

/-- Claim C7: in the row-scan (zigzag) planner, row `k` is scanned at height
exactly `spacing/2 + k·spacing`, the first row (k = 0) is scanned
left-to-right, and the scan direction is flipped after every row regardless
of whether the row contributed points, so the direction used at row `k` is a
function of the parity of `k`; the row loop runs exactly while
`spacing/2 + k·spacing < H`. -/
theorem claim_C7_zigzag_rows_parity (obstacles : List Rect) (W H s c r : ℚ)
    (hs : 0 < s) :
    planZigzagPoints obstacles W H s c r =
      ((List.range (ceilSteps H s)).flatMap fun k : ℕ =>
        zigzagRow (obstacles.map fun o => expandObstacle o c) obstacles W H c r
          (decide (k % 2 = 0)) (s / 2 + (k : ℚ) * s)) ∧
    ∀ k : ℕ, k < ceilSteps H s ↔ s / 2 + (k : ℚ) * s < H := by
  constructor
  · rw [planZigzagPoints, zigzagGo_eq_flatMap]
    congr 1
  · exact ceilSteps_lt_iff H s hs

/-- Witness for C7 at scenario-A parameters (5×5 wall, no obstacles, spacing
0.2, resolution 0.01). -/
theorem claim_C7_witness :
    (planZigzagPoints [] 5 5 (1 / 5) (1 / 50) (1 / 100) =
      ((List.range (ceilSteps 5 (1 / 5))).flatMap fun k : ℕ =>
        zigzagRow (([] : List Rect).map fun o => expandObstacle o (1 / 50)) []
          5 5 (1 / 50) (1 / 100) (decide (k % 2 = 0))
          (1 / 5 / 2 + (k : ℚ) * (1 / 5)))) ∧
    ∀ k : ℕ, k < ceilSteps 5 (1 / 5) ↔ 1 / 5 / 2 + (k : ℚ) * (1 / 5) < 5 :=
  claim_C7_zigzag_rows_parity [] 5 5 (1 / 5) (1 / 50) (1 / 100) (by norm_num)

/-- Congruence for `flatMap` with membership information. -/
theorem flatMap_congr_mem {α β : Type} {l : List α} {f g : α → List β}
    (h : ∀ a ∈ l, f a = g a) : l.flatMap f = l.flatMap g := by
  induction l with
  | nil => rfl
  | cons a l ih =>
      simp only [List.flatMap_cons]
      rw [h a (by simp), ih fun x hx => h x (by simp [hx])]

/-- A `flatMap` whose function is pointwise empty is empty. -/
theorem flatMap_nil_of_mem {α β : Type} {l : List α} {f : α → List β}
    (h : ∀ a ∈ l, f a = []) : l.flatMap f = [] := by
  induction l with
  | nil => rfl
  | cons a l ih =>
      simp only [List.flatMap_cons]
      rw [h a (by simp), ih fun x hx => h x (by simp [hx]), List.nil_append]

/-- With no obstacles, the left-to-right scan keeps every candidate of a
segment inside the wall. -/
theorem scanSegmentLTR_no_obstacles (W H r y a b : ℚ) (hr : 0 < r)
    (ha : 0 ≤ a) (hbW : b ≤ W) (hy0 : 0 ≤ y) (hyH : y ≤ H) :
    scanSegmentLTR [] W H r y a b =
      (List.range (stepCountInc a b r)).map fun i : ℕ =>
        (⟨a + (i : ℚ) * r, y⟩ : Point) := by
  unfold scanSegmentLTR
  have hall : ∀ px ∈ (List.range (stepCountInc a b r)).map
      fun i : ℕ => a + (i : ℚ) * r, isPointValid [] W H px y = true := by
    intro px hpx
    simp only [List.mem_map, List.mem_range] at hpx
    obtain ⟨i, hi, rfl⟩ := hpx
    have hxb : a + (i : ℚ) * r ≤ b := (stepCountInc_lt_iff a b r hr i).mp hi
    have hir : 0 ≤ (i : ℚ) * r := mul_nonneg (Nat.cast_nonneg i) hr.le
    simp only [isPointValid, List.all_nil, Bool.and_true]
    rw [decide_eq_true_eq]
    exact ⟨by linarith, by linarith, hy0, hyH⟩
  rw [List.filter_eq_self.mpr hall, List.map_map]
  rfl

/-- With no obstacles, the right-to-left scan keeps every candidate of a
segment inside the wall. -/
theorem scanSegmentRTL_no_obstacles (W H r y a b : ℚ) (hr : 0 < r)
    (ha : 0 ≤ a) (hbW : b ≤ W) (hy0 : 0 ≤ y) (hyH : y ≤ H) :
    scanSegmentRTL [] W H r y a b =
      (List.range (stepCountInc a b r)).map fun i : ℕ =>
        (⟨b - (i : ℚ) * r, y⟩ : Point) := by
  unfold scanSegmentRTL
  have hall : ∀ px ∈ (List.range (stepCountInc a b r)).map
      fun i : ℕ => b - (i : ℚ) * r, isPointValid [] W H px y = true := by
    intro px hpx
    simp only [List.mem_map, List.mem_range] at hpx
    obtain ⟨i, hi, rfl⟩ := hpx
    have hxb : a + (i : ℚ) * r ≤ b := (stepCountInc_lt_iff a b r hr i).mp hi
    have hir : 0 ≤ (i : ℚ) * r := mul_nonneg (Nat.cast_nonneg i) hr.le
    simp only [isPointValid, List.all_nil, Bool.and_true]
    rw [decide_eq_true_eq]
    exact ⟨by linarith, by linarith, hy0, hyH⟩
  rw [List.filter_eq_self.mpr hall, List.map_map]
  rfl

/-- With no obstacles a zigzag row spans the full width `[0, W]`. -/
theorem zigzagRow_no_obstacles (W H c r : ℚ) (dir : Bool) (y : ℚ)
    (hr : 0 < r) (hy0 : 0 ≤ y) (hyH : y ≤ H) :
    zigzagRow [] [] W H c r dir y =
      (List.range (stepCountInc 0 W r)).map fun i : ℕ =>
        if dir then (⟨0 + (i : ℚ) * r, y⟩ : Point)
        else (⟨W - (i : ℚ) * r, y⟩ : Point) := by
  cases dir with
  | true =>
      simp only [zigzagRow, getFreeSegmentsInRow, List.foldl_nil, if_true,
        List.flatMap_cons, List.flatMap_nil, List.append_nil]
      rw [scanSegmentLTR_no_obstacles W H r y 0 W hr le_rfl le_rfl hy0 hyH]
  | false =>
      simp only [zigzagRow, getFreeSegmentsInRow, List.foldl_nil,
        Bool.false_eq_true, if_false, List.reverse_cons, List.reverse_nil,
        List.nil_append, List.flatMap_cons, List.flatMap_nil, List.append_nil]
      rw [scanSegmentRTL_no_obstacles W H r y 0 W hr le_rfl le_rfl hy0 hyH]

/-- With no obstacles the zigzag planner is the full serpentine grid:
`ceilSteps H s` rows, each spanning `[0, W]` with `stepCountInc 0 W r`
points, alternating direction by row parity. -/
theorem planZigzag_no_obstacles (W H s c r : ℚ) (hs : 0 < s) (hr : 0 < r) :
    planZigzagPoints [] W H s c r =
      (List.range (ceilSteps H s)).flatMap fun k : ℕ =>
        (List.range (stepCountInc 0 W r)).map fun i : ℕ =>
          if k % 2 = 0 then (⟨0 + (i : ℚ) * r, s / 2 + (k : ℚ) * s⟩ : Point)
          else (⟨W - (i : ℚ) * r, s / 2 + (k : ℚ) * s⟩ : Point) := by
  rw [planZigzagPoints, zigzagGo_eq_flatMap]
  simp only [List.map_nil]
  refine flatMap_congr_mem fun k hk => ?_
  rw [List.mem_range] at hk
  have hyH : s / 2 + (k : ℚ) * s < H := (ceilSteps_lt_iff H s hs k).mp hk
  have hy0 : 0 ≤ s / 2 + (k : ℚ) * s := by
    have : 0 ≤ (k : ℚ) * s := mul_nonneg (Nat.cast_nonneg k) hs.le
    linarith
  rw [zigzagRow_no_obstacles W H c r _ _ hr hy0 hyH.le]
  rcases Nat.mod_two_eq_zero_or_one k with hpar | hpar <;> simp [hpar]

/-- The zigzag row loop of scenario A runs 25 times. -/
theorem ceilSteps_scenarioA : ceilSteps 5 (1 / 5) = 25 := by
  unfold ceilSteps
  rw [if_neg (by norm_num)]
  have h : ⌈((5 : ℚ) - 1 / 5 / 2) / (1 / 5)⌉ = 25 := by
    rw [Int.ceil_eq_iff]
    norm_num
  rw [h]
  rfl

/-- The scenario-A segment scan of `[0, 5]` at resolution `0.01` produces 501
candidates. -/
theorem stepCountInc_scenarioA : stepCountInc 0 5 (1 / 100) = 501 := by
  unfold stepCountInc
  rw [if_neg (by norm_num)]
  have h : ⌊((5 : ℚ) - 0) / (1 / 100)⌋ = 500 := by norm_num
  rw [h]
  rfl

/-- The raw zigzag generation of scenario A is exactly the 25×501 serpentine
grid. -/
theorem scenarioA_raw : rawPlanPoints [] 5 5 scenarioASettings = scenarioAList := by
  show planZigzagPoints [] 5 5 (1 / 5) (1 / 50) (1 / 100) = scenarioAList
  rw [planZigzag_no_obstacles 5 5 (1 / 5) (1 / 50) (1 / 100) (by norm_num)
    (by norm_num), ceilSteps_scenarioA, stepCountInc_scenarioA]
  unfold scenarioAList
  refine flatMap_congr_mem fun k _ => List.map_congr_left fun i _ => ?_
  rcases Nat.mod_two_eq_zero_or_one k with hpar | hpar <;> simp [hpar]

/-- The length of a `flatMap` whose rows all have the same length. -/
theorem length_flatMap_const {α β : Type} (l : List α) (f : α → List β)
    (m : ℕ) (h : ∀ a ∈ l, (f a).length = m) :
    (l.flatMap f).length = l.length * m := by
  induction l with
  | nil => simp
  | cons a l ih =>
      simp only [List.flatMap_cons, List.length_append, List.length_cons,
        h a (by simp), ih fun x hx => h x (by simp [hx])]
      ring

/-- Scenario A generates 12525 points. -/
theorem scenarioAList_length : scenarioAList.length = 12525 := by
  unfold scenarioAList
  rw [length_flatMap_const _ _ 501 fun k _ => by simp]
  simp

/-- Scenario A generates at least one point. -/
theorem scenarioAList_not_empty : scenarioAList.isEmpty = false := by
  cases h : scenarioAList.isEmpty
  · rfl
  · exfalso
    have h2 := scenarioAList_length
    rw [List.isEmpty_iff.mp h] at h2
    simp at h2

/-- With no obstacles the consecutive-segment pass of the validator passes
vacuously. -/
theorem segmentsOk_nil_obstacles (r : ℚ) : ∀ ps, segmentsOk [] r ps = true := by
  intro ps
  induction ps with
  | nil => rfl
  | cons p rest ih =>
      cases rest with
      | nil => rfl
      | cons q rest2 =>
          simp only [segmentsOk, segmentCrossesObstacles, List.any_nil,
            Bool.not_false, Bool.true_and]
          exact ih

/-- The scenario-A grid passes the final path-safety validation. -/
theorem scenarioA_validate :
    validatePathSafety [] 5 5 (1 / 100) scenarioAList = true := by
  unfold validatePathSafety
  rw [Bool.and_eq_true]
  refine ⟨?_, segmentsOk_nil_obstacles _ _⟩
  rw [List.all_eq_true]
  intro p hp
  unfold scenarioAList at hp
  simp only [List.mem_flatMap, List.mem_map, List.mem_range] at hp
  obtain ⟨k, hk, i, hi, rfl⟩ := hp
  have hi' : (i : ℚ) ≤ 500 := by exact_mod_cast Nat.lt_succ_iff.mp hi
  have hi0 : (0 : ℚ) ≤ (i : ℚ) := Nat.cast_nonneg i
  have hk' : (k : ℚ) ≤ 24 := by exact_mod_cast Nat.lt_succ_iff.mp hk
  have hk0 : (0 : ℚ) ≤ (k : ℚ) := Nat.cast_nonneg k
  rcases Nat.mod_two_eq_zero_or_one k with hpar | hpar <;>
    · simp only [hpar, isPointValid, List.all_nil, Bool.and_true]
      norm_num
      exact ⟨by linarith, by linarith, by linarith⟩

/-- The complete scenario-A planning call succeeds under the README point
limit (50000) and returns the full serpentine grid. -/
theorem scenarioA_planPoints_ok :
    planPoints [] 5 5 scenarioASettings MAX_TRAJECTORY_POINTS =
      .ok scenarioAList := by
  simp only [planPoints, scenarioA_raw, scenarioAList_not_empty,
    Bool.false_eq_true, if_false, List.map_nil]
  rw [scenarioAList_length, if_neg (by norm_num [MAX_TRAJECTORY_POINTS])]
  have hres : scenarioASettings.resolution = 1 / 100 := rfl
  rw [hres, scenarioA_validate, if_pos rfl]

/-- Claim C9 counterexample: with the design document's own point cap
`MAX_POINTS = 10000` (part_001 lines 324-329), scenario A (5×5 wall, no
obstacles, spacing 0.2, resolution 0.01) does not "successfully return a
trajectory": the 12525 generated points exceed the cap and the call raises
`LimitExceededError`. -/
theorem claim_C9_counterexample :
    planPoints [] 5 5 scenarioASettings MAX_POINTS = .error .limitExceeded := by
  simp only [planPoints, scenarioA_raw, scenarioAList_not_empty,
    Bool.false_eq_true, if_false]
  rw [scenarioAList_length, if_pos (by norm_num [MAX_POINTS])]

/-- Claim C9 (amended): on a 5×5 wall with no obstacles, spacing 0.2 and
resolution 0.01, the zigzag planner generates exactly 25 rows at heights
`0.1 + 0.2·k` (`k = 0 … 24`), each row spanning the full `[0, 5]` width with
exactly 501 points (12525 in total, direction alternating with row parity);
the call succeeds and returns this complete grid only under a point cap of at
least 12525 — e.g. the README's 50000 — whereas with the design document's
`MAX_POINTS = 10000` it raises `LimitExceededError`. -/
theorem claim_C9_scenarioA :
    planPoints [] 5 5 scenarioASettings MAX_TRAJECTORY_POINTS =
      .ok scenarioAList ∧ scenarioAList.length = 25 * 501 :=
  ⟨scenarioA_planPoints_ok, scenarioAList_length.trans (by norm_num)⟩

/-- The consecutive-segment pass, read back at the level of positions `i`,
`i+1`. -/
theorem segmentsOk_getD (expanded : List Rect) (r : ℚ) :
    ∀ ps : List Point, segmentsOk expanded r ps = true →
      ∀ i : ℕ, i + 1 < ps.length →
        segmentCrossesObstacles expanded r (ps.getD i ⟨0, 0⟩)
          (ps.getD (i + 1) ⟨0, 0⟩) = false := by
  intro ps
  induction ps with
  | nil => intro _ i hi; simp at hi
  | cons p rest ih =>
      cases rest with
      | nil =>
          intro _ i hi
          simp at hi
      | cons q rest2 =>
          intro hok i hi
          rw [segmentsOk, Bool.and_eq_true] at hok
          obtain ⟨h1, h2⟩ := hok
          cases i with
          | zero => simpa using h1
          | succ i =>
              have hlen : i + 1 < (q :: rest2).length := by
                simp only [List.length_cons] at hi ⊢
                omega
              simpa using ih h2 i hlen

/-- Claim C1: every trajectory accepted and returned by a planning call
(zigzag or spiral) consists of points inside the wall bounds `[0,W]×[0,H]`
and inside no expanded obstacle, and no segment between consecutive points
crosses any expanded obstacle (in the sense of the source's segment test,
with its sampling approximation for non-axis-aligned segments). -/
theorem claim_C1_accepted_trajectory_safe (obstacles : List Rect) (W H : ℚ)
    (st : PlannerSettings) (maxPoints : ℕ) (pts : List Point)
    (h : planPoints obstacles W H st maxPoints = .ok pts) :
    (∀ p ∈ pts, (0 ≤ p.x ∧ p.x ≤ W ∧ 0 ≤ p.y ∧ p.y ≤ H) ∧
      ∀ ob ∈ obstacles.map fun o => expandObstacle o st.clearance,
        containsPoint ob p.x p.y = false) ∧
    ∀ i : ℕ, i + 1 < pts.length →
      segmentCrossesObstacles
        (obstacles.map fun o => expandObstacle o st.clearance) st.resolution
        (pts.getD i ⟨0, 0⟩) (pts.getD (i + 1) ⟨0, 0⟩) = false := by
  have hval : validatePathSafety
      (obstacles.map fun o => expandObstacle o st.clearance) W H
      st.resolution pts = true := by
    simp only [planPoints] at h
    split_ifs at h with h1 h2 h3
    all_goals simp at h
    subst h
    exact h3
  rw [validatePathSafety, Bool.and_eq_true] at hval
  obtain ⟨hall, hseg⟩ := hval
  constructor
  · intro p hp
    have hpv := List.all_eq_true.mp hall p hp
    rw [isPointValid, Bool.and_eq_true] at hpv
    obtain ⟨hb, hobs⟩ := hpv
    rw [decide_eq_true_eq] at hb
    refine ⟨hb, fun ob hob => ?_⟩
    have := List.all_eq_true.mp hobs ob hob
    simpa using this
  · exact segmentsOk_getD _ _ pts hseg

/-- Witness for C1: the accepted scenario-A trajectory (25×501 grid on the
5×5 wall) satisfies all the safety conclusions. -/
theorem claim_C1_witness :
    (∀ p ∈ scenarioAList, (0 ≤ p.x ∧ p.x ≤ 5 ∧ 0 ≤ p.y ∧ p.y ≤ 5) ∧
      ∀ ob ∈ ([] : List Rect).map
        fun o => expandObstacle o scenarioASettings.clearance,
        containsPoint ob p.x p.y = false) ∧
    ∀ i : ℕ, i + 1 < scenarioAList.length →
      segmentCrossesObstacles
        (([] : List Rect).map fun o => expandObstacle o scenarioASettings.clearance)
        scenarioASettings.resolution (scenarioAList.getD i ⟨0, 0⟩)
        (scenarioAList.getD (i + 1) ⟨0, 0⟩) = false :=
  claim_C1_accepted_trajectory_safe [] 5 5 scenarioASettings
    MAX_TRAJECTORY_POINTS scenarioAList scenarioA_planPoints_ok

/-- Claim C2: whenever the generated point count exceeds the configured
maximum, the planning call returns `LimitExceededError` and no trajectory;
and any successfully returned point sequence is the complete raw generation
— never a truncated or partial one. -/
theorem claim_C2_limit_exceeded (obstacles : List Rect) (W H : ℚ)
    (st : PlannerSettings) (maxPoints : ℕ) :
    (maxPoints < (rawPlanPoints obstacles W H st).length →
      planPoints obstacles W H st maxPoints = .error .limitExceeded) ∧
    ∀ pts, planPoints obstacles W H st maxPoints = .ok pts →
      pts = rawPlanPoints obstacles W H st := by
  constructor
  · intro hlen
    simp only [planPoints]
    rw [if_neg, if_pos hlen]
    intro hempty
    rw [List.isEmpty_iff.mp hempty] at hlen
    simp at hlen
  · intro pts h
    simp only [planPoints] at h
    split_ifs at h with h1 h2 h3
    all_goals simp at h
    subst h
    rfl

/-- Witness for C2: scenario A generates 12525 points, which exceeds the
design document's `MAX_POINTS = 10000`, and the call indeed fails with
`LimitExceededError`. -/
theorem claim_C2_witness :
    planPoints [] 5 5 scenarioASettings MAX_POINTS = .error .limitExceeded :=
  (claim_C2_limit_exceeded [] 5 5 scenarioASettings MAX_POINTS).1
    (by rw [scenarioA_raw, scenarioAList_length]; norm_num [MAX_POINTS])

/-- Both planners append only candidates passing `is_valid`, so when no point
anywhere passes validation the raw generation is empty. -/
theorem rawPlanPoints_nil_of_invalid (obstacles : List Rect) (W H : ℚ)
    (st : PlannerSettings)
    (h : ∀ x y : ℚ, isPointValid
      (obstacles.map fun o => expandObstacle o st.clearance) W H x y = false) :
    rawPlanPoints obstacles W H st = [] := by
  have hscanL : ∀ r y a b : ℚ, scanSegmentLTR
      (obstacles.map fun o => expandObstacle o st.clearance) W H r y a b = [] := by
    intro r y a b
    simp [scanSegmentLTR, h]
  have hscanR : ∀ r y a b : ℚ, scanSegmentRTL
      (obstacles.map fun o => expandObstacle o st.clearance) W H r y a b = [] := by
    intro r y a b
    simp [scanSegmentRTL, h]
  have hrow : ∀ (dir : Bool) (y : ℚ), zigzagRow
      (obstacles.map fun o => expandObstacle o st.clearance) obstacles W H
      st.clearance st.resolution dir y = [] := by
    intro dir y
    cases dir with
    | true =>
        simp only [zigzagRow, if_true]
        exact flatMap_nil_of_mem fun sg _ => hscanL _ _ _ _
    | false =>
        simp only [zigzagRow, Bool.false_eq_true, if_false]
        exact flatMap_nil_of_mem fun sg _ => hscanR _ _ _ _
  have hgo : ∀ (n : ℕ) (y : ℚ) (dir : Bool), zigzagGo
      (obstacles.map fun o => expandObstacle o st.clearance) obstacles W H
      st.clearance st.resolution st.spacing n y dir = [] := by
    intro n
    induction n with
    | zero => intro y dir; rfl
    | succ n ih =>
        intro y dir
        rw [zigzagGo, hrow, ih, List.append_nil]
  have hlayer : ∀ o : ℚ, spiralLayerPoints
      (obstacles.map fun ob => expandObstacle ob st.clearance) W H
      st.resolution o = [] := by
    intro o
    simp [spiralLayerPoints, h]
  have hsgo : ∀ (n : ℕ) (o : ℚ), spiralGo
      (obstacles.map fun ob => expandObstacle ob st.clearance) W H
      st.resolution st.spacing n o = [] := by
    intro n
    induction n with
    | zero => intro o; rfl
    | succ n ih =>
        intro o
        rw [spiralGo]
        split
        · rfl
        · rw [hlayer, ih, List.append_nil]
  cases hpat : st.pattern with
  | zigzag =>
      simp only [rawPlanPoints, hpat, planZigzagPoints]
      exact hgo _ _ _
  | spiral =>
      simp only [rawPlanPoints, hpat, planSpiralPoints]
      exact hsgo _ _

/-- Claim C3: when the free area is empty — no candidate point anywhere
passes validation — the planning call raises `PlanningError` rather than
returning an empty trajectory; conversely, every accepted point sequence is
non-empty. -/
theorem claim_C3_empty_free_area (obstacles : List Rect) (W H : ℚ)
    (st : PlannerSettings) (maxPoints : ℕ) :
    ((∀ x y : ℚ, isPointValid
        (obstacles.map fun o => expandObstacle o st.clearance) W H x y = false) →
      planPoints obstacles W H st maxPoints = .error .planningError) ∧
    ∀ pts, planPoints obstacles W H st maxPoints = .ok pts → pts ≠ [] := by
  constructor
  · intro h
    simp only [planPoints, rawPlanPoints_nil_of_invalid obstacles W H st h]
    rfl
  · intro pts h hn
    simp only [planPoints] at h
    split_ifs at h with h1 h2 h3
    all_goals simp at h
    subst h
    exact h1 (by rw [hn]; rfl)

/-- Witness for C3: a single obstacle exactly covering the whole 1×1 wall
(clearance 0) leaves no valid point, and the call fails with
`PlanningError`. -/
theorem claim_C3_witness :
    planPoints [⟨0, 0, 1, 1⟩] 1 1 ⟨.zigzag, 1 / 2, 1 / 10, 0, 1 / 10⟩ 100 =
      .error .planningError :=
  (claim_C3_empty_free_area [⟨0, 0, 1, 1⟩] 1 1
      ⟨.zigzag, 1 / 2, 1 / 10, 0, 1 / 10⟩ 100).1 (by
    intro x y
    have e : expandObstacle ⟨0, 0, 1, 1⟩ (0 : ℚ) = ⟨0, 0, 1, 1⟩ := by
      simp [expandObstacle]
    show isPointValid ([⟨0, 0, 1, 1⟩].map fun o => expandObstacle o (0 : ℚ))
      1 1 x y = false
    simp only [List.map_cons, List.map_nil, e, isPointValid, List.all_cons,
      List.all_nil, Bool.and_true]
    by_cases hb : (0 : ℚ) ≤ x ∧ x ≤ 1 ∧ 0 ≤ y ∧ y ≤ 1
    · have hc : containsPoint ⟨0, 0, 1, 1⟩ x y = true := by
        rw [containsPoint, decide_eq_true_eq]
        obtain ⟨h1, h2, h3, h4⟩ := hb
        norm_num
        exact ⟨h1, h2, h3, h4⟩
      simp [hc]
    · simp [decide_eq_false hb])

/-- Claim C5 counterexample: for the obstacle `(0,0,1,1)` with clearance
`0.02` on a 5×5 wall, the source's expansion is not the clamped rectangle the
claim describes, and it contains the point `(-0.01, 0.5)`, which lies outside
the wall — so part of an expanded obstacle does extend outside
`[0,W]×[0,H]`. -/
theorem claim_C5_counterexample :
    expandObstacle ⟨0, 0, 1, 1⟩ (1 / 50) ≠
      clampedExpandObstacle 5 5 ⟨0, 0, 1, 1⟩ (1 / 50) ∧
    containsPoint (expandObstacle ⟨0, 0, 1, 1⟩ (1 / 50)) (-(1 / 100))
      (1 / 2) = true ∧
    ¬(0 ≤ -(1 / 100 : ℚ)) := by
  refine ⟨?_, ?_, by norm_num⟩
  · intro hEq
    have hx := congrArg Rect.x hEq
    norm_num [expandObstacle, clampedExpandObstacle] at hx
  · rw [containsPoint, decide_eq_true_eq]
    norm_num [expandObstacle]

/-- Claim C5 (amended): the expanded obstacle used for planning equals the
obstacle inflated by the clearance `c` on all sides with no clamping — a
point lies in it iff it lies in `[x-c, x+w+c] × [y-c, y+h+c]`; the expansion
may therefore extend outside the wall (such outside points are rejected later
by the wall-bounds check of `is_valid`, not by clamping). -/
theorem claim_C5_expansion_unclamped (o : Rect) (c px py : ℚ) :
    containsPoint (expandObstacle o c) px py = true ↔
      (o.x - c ≤ px ∧ px ≤ o.x + o.w + c ∧
        o.y - c ≤ py ∧ py ≤ o.y + o.h + c) := by
  rw [containsPoint, decide_eq_true_eq]
  simp only [expandObstacle]
  constructor <;> rintro ⟨h1, h2, h3, h4⟩ <;>
    exact ⟨by linarith, by linarith, by linarith, by linarith⟩

/-- Membership in the README spiral layer loop: an offset is traced iff it is
reached within the guard bound and no earlier (hence no) layer on the way was
degenerate at the `resolution` threshold. -/
theorem spiralOffsetsGoR_mem (W H s r : ℚ) :
    ∀ (n : ℕ) (o x : ℚ), x ∈ spiralOffsetsGoR W H s r n o ↔
      ∃ j : ℕ, j < n ∧ x = o + (j : ℚ) * s ∧
        ∀ i : ℕ, i ≤ j →
          (r < W - 2 * (o + (i : ℚ) * s) ∧ r < H - 2 * (o + (i : ℚ) * s)) := by
  intro n
  induction n with
  | zero => intro o x; simp [spiralOffsetsGoR]
  | succ n ih =>
      intro o x
      rw [spiralOffsetsGoR]
      split_ifs with hdeg
      · simp only [List.not_mem_nil, false_iff]
        rintro ⟨j, hj, hx, hcond⟩
        have h0 := hcond 0 (Nat.zero_le j)
        simp only [Nat.cast_zero, zero_mul, add_zero] at h0
        rcases hdeg with hd | hd <;> linarith [h0.1, h0.2]
      · push_neg at hdeg
        rw [List.mem_cons, ih]
        constructor
        · rintro (rfl | ⟨j, hj, hx, hcond⟩)
          · refine ⟨0, Nat.succ_pos n, by simp, ?_⟩
            intro i hi
            have h0 : i = 0 := Nat.le_zero.mp hi
            subst h0
            simp only [Nat.cast_zero, zero_mul, add_zero]
            exact ⟨hdeg.1, hdeg.2⟩
          · refine ⟨j + 1, by omega, ?_, ?_⟩
            · rw [hx]; push_cast; ring
            · intro i hi
              cases i with
              | zero =>
                  simp only [Nat.cast_zero, zero_mul, add_zero]
                  exact ⟨hdeg.1, hdeg.2⟩
              | succ i =>
                  have hc := hcond i (by omega)
                  push_cast
                  exact ⟨by linarith [hc.1], by linarith [hc.2]⟩
        · rintro ⟨j, hj, hx, hcond⟩
          cases j with
          | zero =>
              left
              rw [hx]; simp
          | succ j =>
              right
              refine ⟨j, by omega, ?_, ?_⟩
              · rw [hx]; push_cast; ring
              · intro i hi
                have hc := hcond (i + 1) (by omega)
                push_cast at hc
                exact ⟨by linarith [hc.1], by linarith [hc.2]⟩

/-- Claim C4 (amended): the README spiral (part_003) terminates exactly at
the degeneracy threshold: a layer offset `spacing/2 + k·spacing` is traced
iff its layer rectangle satisfies `width > resolution` and
`height > resolution`; consequently every traced offset also satisfies the
design-doc guard `offset < min(W,H)/2`.  (The design-doc loop of part_001,
whose break fires only at non-positive width/height, does trace layers with
`width ≤ resolution` — see the counterexample.) -/
theorem claim_C4_spiral_termination (W H s r : ℚ) (hs : 0 < s) (hr : 0 < r) :
    (∀ o ∈ spiralLayerOffsetsReadme W H s r,
      (∃ k : ℕ, o = s / 2 + (k : ℚ) * s) ∧ r < W - 2 * o ∧ r < H - 2 * o ∧
        o < min W H / 2) ∧
    ∀ k : ℕ, (s / 2 + (k : ℚ) * s) ∈ spiralLayerOffsetsReadme W H s r ↔
      (r < W - 2 * (s / 2 + (k : ℚ) * s) ∧
        r < H - 2 * (s / 2 + (k : ℚ) * s)) := by
  have hmem := spiralOffsetsGoR_mem W H s r (ceilSteps (max W H) s) (s / 2)
  constructor
  · intro o ho
    rw [spiralLayerOffsetsReadme, hmem o] at ho
    obtain ⟨j, hj, rfl, hcond⟩ := ho
    have hcj := hcond j le_rfl
    refine ⟨⟨j, rfl⟩, hcj.1, hcj.2, ?_⟩
    rw [lt_div_iff₀ (by norm_num : (0 : ℚ) < 2), lt_min_iff]
    constructor <;> linarith [hcj.1, hcj.2]
  · intro k
    rw [spiralLayerOffsetsReadme, hmem]
    constructor
    · rintro ⟨j, hj, hx, hcond⟩
      have hkj : (k : ℚ) * s = (j : ℚ) * s := by linarith
      have hkq : (k : ℚ) = (j : ℚ) := mul_right_cancel₀ hs.ne' hkj
      have hk : k = j := by exact_mod_cast hkq
      subst hk
      exact hcond k le_rfl
    · intro hcnd
      refine ⟨k, ?_, rfl, ?_⟩
      · have h0 : (0 : ℚ) ≤ (k : ℚ) * s :=
          mul_nonneg (Nat.cast_nonneg k) hs.le
        have h1 : s / 2 + (k : ℚ) * s < W := by linarith [hcnd.1]
        exact (ceilSteps_lt_iff (max W H) s hs k).mpr
          (lt_of_lt_of_le h1 (le_max_left W H))
      · intro i hi
        have hik : (i : ℚ) ≤ (k : ℚ) := by exact_mod_cast hi
        have hmono : (i : ℚ) * s ≤ (k : ℚ) * s :=
          mul_le_mul_of_nonneg_right hik hs.le
        exact ⟨by linarith [hcnd.1], by linarith [hcnd.2]⟩

/-- Witness for C4: on a 1×1 wall with spacing 0.2 and resolution 0.01 the
README spiral traces the first layer (offset 0.1), whose rectangle is
non-degenerate. -/
theorem claim_C4_witness :
    ((1 : ℚ) / 5 / 2 + ((0 : ℕ) : ℚ) * (1 / 5)) ∈
      spiralLayerOffsetsReadme 1 1 (1 / 5) (1 / 100) :=
  ((claim_C4_spiral_termination 1 1 (1 / 5) (1 / 100) (by norm_num)
      (by norm_num)).2 0).mpr (by norm_num)

/-- Claim C4 counterexample: on a 1×1 wall with spacing 0.9, the design-doc
spiral loop (guard `offset < min(W,H)/2`, break only at non-positive
dimensions) traces the layer at offset 0.45 even though that layer's width
`1 - 2·0.45 = 0.1` is `≤ resolution` for the legal resolution 0.1 — the loop
does not terminate when `L.width ≤ resolution`, refuting the claimed
termination condition. -/
theorem claim_C4_counterexample :
    spiralLayerOffsets 1 1 (9 / 10) = [9 / 20] ∧
      1 - 2 * (9 / 20 : ℚ) ≤ 1 / 10 := by
  constructor
  · unfold spiralLayerOffsets
    have hc : ceilSteps (min (1 : ℚ) 1 / 2) (9 / 10) = 1 := by
      unfold ceilSteps
      rw [if_neg (by norm_num)]
      have h : ⌈((min (1 : ℚ) 1 / 2) - 9 / 10 / 2) / (9 / 10)⌉ = 1 := by
        rw [Int.ceil_eq_iff]
        norm_num
      rw [h]
      rfl
    rw [hc, spiralOffsetsGoD, if_neg (by norm_num)]
    norm_num [spiralOffsetsGoD]
  · norm_num

/-- Rectangle containment is reflexive. -/
theorem rectContainsB_refl (a : Rect) : rectContainsB a a = true := by
  rw [rectContainsB, decide_eq_true_eq]
  exact ⟨le_rfl, le_rfl, le_rfl, le_rfl⟩

/-- Rectangle containment is transitive. -/
theorem rectContainsB_trans {a b c : Rect} (h1 : rectContainsB a b = true)
    (h2 : rectContainsB b c = true) : rectContainsB a c = true := by
  rw [rectContainsB, decide_eq_true_eq] at h1 h2 ⊢
  obtain ⟨a1, a2, a3, a4⟩ := h1
  obtain ⟨b1, b2, b3, b4⟩ := h2
  exact ⟨by linarith, by linarith, by linarith, by linarith⟩

/-- The bounding-box union contains its first argument. -/
theorem rectContainsB_union_left (a b : Rect) :
    rectContainsB (rectUnion a b) a = true := by
  rw [rectContainsB, decide_eq_true_eq]
  simp only [rectUnion]
  have hx : min a.x b.x + (max (a.x + a.w) (b.x + b.w) - min a.x b.x) =
      max (a.x + a.w) (b.x + b.w) := by ring
  have hy : min a.y b.y + (max (a.y + a.h) (b.y + b.h) - min a.y b.y) =
      max (a.y + a.h) (b.y + b.h) := by ring
  rw [hx, hy]
  exact ⟨min_le_left _ _, le_max_left _ _, min_le_left _ _, le_max_left _ _⟩

/-- The bounding-box union contains its second argument. -/
theorem rectContainsB_union_right (a b : Rect) :
    rectContainsB (rectUnion a b) b = true := by
  rw [rectContainsB, decide_eq_true_eq]
  simp only [rectUnion]
  have hx : min a.x b.x + (max (a.x + a.w) (b.x + b.w) - min a.x b.x) =
      max (a.x + a.w) (b.x + b.w) := by ring
  have hy : min a.y b.y + (max (a.y + a.h) (b.y + b.h) - min a.y b.y) =
      max (a.y + a.h) (b.y + b.h) := by ring
  rw [hx, hy]
  exact ⟨min_le_right _ _, le_max_right _ _, min_le_right _ _, le_max_right _ _⟩

/-- One merge step never loses coverage: anything covered by some rectangle
of the accumulator is still covered after the step. -/
theorem mergeStep_preserves (acc : List Rect) (x : Rect) {o m' : Rect}
    (hm : m' ∈ acc) (hc : rectContainsB m' o = true) :
    ∃ m ∈ mergeStep acc x, rectContainsB m o = true := by
  unfold mergeStep
  cases hfind : acc.find? fun m => rectsOverlap x m with
  | none =>
      simp only [hfind]
      exact ⟨m', List.mem_append_left _ hm, hc⟩
  | some m =>
      simp only [hfind]
      by_cases he : m' = m
      · subst he
        exact ⟨rectUnion x m', List.mem_append_right _ (by simp),
          rectContainsB_trans (rectContainsB_union_right x m') hc⟩
      · exact ⟨m', List.mem_append_left _ ((List.mem_erase_of_ne he).mpr hm), hc⟩

/-- One merge step covers the incoming obstacle itself. -/
theorem mergeStep_self (acc : List Rect) (x : Rect) :
    ∃ m ∈ mergeStep acc x, rectContainsB m x = true := by
  unfold mergeStep
  cases hfind : acc.find? fun m => rectsOverlap x m with
  | none =>
      simp only [hfind]
      exact ⟨x, List.mem_append_right _ (by simp), rectContainsB_refl x⟩
  | some m =>
      simp only [hfind]
      exact ⟨rectUnion x m, List.mem_append_right _ (by simp),
        rectContainsB_union_left x m⟩

/-- The whole merge pass never loses coverage. -/
theorem foldl_mergeStep_preserves :
    ∀ (l acc : List Rect) (o : Rect),
      (∃ m ∈ acc, rectContainsB m o = true) →
      ∃ m ∈ l.foldl mergeStep acc, rectContainsB m o = true := by
  intro l
  induction l with
  | nil => intro acc o h; simpa using h
  | cons x l ih =>
      intro acc o h
      rw [List.foldl_cons]
      obtain ⟨m', hm', hc⟩ := h
      exact ih _ o (mergeStep_preserves acc x hm' hc)

/-- Claim C6 (amended): `merge_obstacles` is a single left-to-right pass in
which each obstacle is merged with at most the first previously-merged
overlapping rectangle; what it does guarantee is that every input obstacle is
covered by some output rectangle.  Its output is not pairwise disjoint in
general (see the counterexample), and no repetition to a fixed point takes
place. -/
theorem claim_C6_merge_covers (l : List Rect) (o : Rect) (ho : o ∈ l) :
    ∃ m ∈ mergeObstacles l, rectContainsB m o = true := by
  rw [mergeObstacles]
  suffices hgen : ∀ l2 acc : List Rect, o ∈ l2 →
      ∃ m ∈ l2.foldl mergeStep acc, rectContainsB m o = true from
    hgen l [] ho
  intro l2
  induction l2 with
  | nil => intro acc h; simp at h
  | cons x l2 ih =>
      intro acc h
      rw [List.foldl_cons]
      rcases List.mem_cons.mp h with rfl | hmem
      · exact foldl_mergeStep_preserves l2 _ o (mergeStep_self acc o)
      · exact ih _ hmem

/-- Witness for C6: the singleton obstacle list is covered by its merge. -/
theorem claim_C6_witness :
    ∃ m ∈ mergeObstacles [⟨0, 0, 1, 1⟩], rectContainsB m ⟨0, 0, 1, 1⟩ = true :=
  claim_C6_merge_covers [⟨0, 0, 1, 1⟩] ⟨0, 0, 1, 1⟩ (by simp)

/-- Claim C6 counterexample: for the obstacles `A = (0,0,1,1)`,
`B = (2,0,1,1)`, `C = (1,0,2,1)` (where `C` touches `A` and properly
overlaps `B`) the single merge pass yields `[B, union(C, A)] =
[(2,0,1,1), (0,0,3,1)]`, whose two (distinct) rectangles intersect — the
output is not pairwise disjoint and no fixed-point repetition happens. -/
theorem claim_C6_counterexample :
    mergeObstacles [⟨0, 0, 1, 1⟩, ⟨2, 0, 1, 1⟩, ⟨1, 0, 2, 1⟩] =
      [⟨2, 0, 1, 1⟩, ⟨0, 0, 3, 1⟩] ∧
    rectsOverlap ⟨2, 0, 1, 1⟩ ⟨0, 0, 3, 1⟩ = true ∧
    (⟨2, 0, 1, 1⟩ : Rect) ≠ ⟨0, 0, 3, 1⟩ := by
  refine ⟨?_, ?_, ?_⟩
  · have s1 : mergeStep [] ⟨0, 0, 1, 1⟩ = [⟨0, 0, 1, 1⟩] := by
      unfold mergeStep
      simp
    have hov1 : rectsOverlap (⟨2, 0, 1, 1⟩ : Rect) ⟨0, 0, 1, 1⟩ = false := by
      rw [rectsOverlap, decide_eq_false_iff_not]
      intro h
      norm_num at h
    have s2 : mergeStep [⟨0, 0, 1, 1⟩] ⟨2, 0, 1, 1⟩ =
        [⟨0, 0, 1, 1⟩, ⟨2, 0, 1, 1⟩] := by
      unfold mergeStep
      simp [List.find?_cons_of_neg, hov1]
    have hov2 : rectsOverlap (⟨1, 0, 2, 1⟩ : Rect) ⟨0, 0, 1, 1⟩ = true := by
      rw [rectsOverlap, decide_eq_true_eq]
      norm_num
    have s3 : mergeStep [⟨0, 0, 1, 1⟩, ⟨2, 0, 1, 1⟩] ⟨1, 0, 2, 1⟩ =
        [⟨2, 0, 1, 1⟩, rectUnion ⟨1, 0, 2, 1⟩ ⟨0, 0, 1, 1⟩] := by
      unfold mergeStep
      simp [List.find?_cons_of_pos, hov2]
    have hu : rectUnion ⟨1, 0, 2, 1⟩ ⟨0, 0, 1, 1⟩ = ⟨0, 0, 3, 1⟩ := by
      rw [rectUnion]
      norm_num [Rect.mk.injEq]
    rw [mergeObstacles, List.foldl_cons, s1, List.foldl_cons, s2,
      List.foldl_cons, s3, List.foldl_nil, hu]
  · rw [rectsOverlap, decide_eq_true_eq]
    norm_num
  · intro h
    have hx := congrArg Rect.x h
    norm_num at hx

/-- The accumulating loop of `calculate_path_length` equals the sum of the
consecutive Euclidean distances indexed by position. -/
theorem calculatePathLength_eq_sum (ps : List Point) :
    calculatePathLength ps = ∑ i ∈ Finset.range (ps.length - 1),
      euclideanDistance (ps.getD i ⟨0, 0⟩) (ps.getD (i + 1) ⟨0, 0⟩) := by
  induction ps with
  | nil => simp [calculatePathLength]
  | cons p rest ih =>
      cases rest with
      | nil => simp [calculatePathLength]
      | cons q rest2 =>
          rw [calculatePathLength, ih]
          have hlen : (p :: q :: rest2).length - 1 =
              ((q :: rest2).length - 1) + 1 := by
            simp only [List.length_cons]
            omega
          rw [hlen, Finset.sum_range_succ']
          simp only [List.getD_cons_succ, List.getD_cons_zero]
          ring

/-- Claim C8: for every assembled trajectory, `length_m` equals the sum of
Euclidean distances over all consecutive point pairs (jump transitions
included, since every consecutive pair is summed), `duration_s` equals
`length_m / speed`, and `point_count` equals the number of points. -/
theorem claim_C8_metrics (pts : List Point) (speed : ℚ) :
    (mkTrajectory pts speed).length_m = ∑ i ∈ Finset.range (pts.length - 1),
      euclideanDistance (pts.getD i ⟨0, 0⟩) (pts.getD (i + 1) ⟨0, 0⟩) ∧
    (mkTrajectory pts speed).duration_s =
      (mkTrajectory pts speed).length_m / (speed : ℝ) ∧
    (mkTrajectory pts speed).point_count = pts.length :=
  ⟨calculatePathLength_eq_sum pts, rfl, rfl⟩

/-- Claim C10: both frontend request sites — initial wall creation and
regeneration — build identical planner settings, fixed to speed 0.1,
clearance 0.02, resolution 0.01, and spacing 0.05 for spiral / 0.2
otherwise; the settings are a function of the selected pattern alone (the UI
exposes no other input feeding them). -/
theorem claim_C10_frontend_settings (p : Pattern) :
    createWallAndPathSettings p = regenerateSettings p ∧
    (createWallAndPathSettings p).speed = 1 / 10 ∧
    (createWallAndPathSettings p).clearance = 1 / 50 ∧
    (createWallAndPathSettings p).resolution = 1 / 100 ∧
    (createWallAndPathSettings p).spacing =
      (if p = .spiral then 1 / 20 else 1 / 5) ∧
    (createWallAndPathSettings p).pattern = p :=
  ⟨rfl, rfl, rfl, rfl, rfl, rfl⟩

end WFR
